import Mathlib

/-!
Verification of the tch-serde codec library (src/lib.rs).

The four codec modules `serde_tensor`, `serde_device`, `serde_kind` and
`serde_reduction` are embedded as pure Lean functions.  The serde plumbing
(the `Serializer`/`Deserializer` drivers) is out of scope: each codec is
modelled at the level of the value it produces or consumes — a `String` for
the three leaf codecs, a `TensorRepr` record for the tensor codec.  Errors
signalled through `S::Error::custom` / `D::Error::custom` are modelled with
`Except String`.
-/

/-- The element-type tag of the external tensor library (`tch::Kind`),
a closed 16-variant enumeration. -/
inductive Kind where
  | Uint8
  | Int8
  | Int16
  | Int
  | Int64
  | Half
  | Float
  | Double
  | ComplexHalf
  | ComplexFloat
  | ComplexDouble
  | Bool
  | QInt8
  | QUInt8
  | QInt32
  | BFloat16
deriving DecidableEq, Repr

/-- The compute-device descriptor of the external tensor library
(`tch::Device`): host CPU or an indexed accelerator.  The index is a Rust
`usize`; its 64-bit bound appears as a hypothesis where it matters. -/
inductive Device where
  | Cpu
  | Cuda (index : Nat)
deriving DecidableEq, Repr

/-- The loss-reduction enumeration of the external tensor library
(`tch::Reduction`).  The custom payload is a Rust `i64`; its bounds appear
as hypotheses where they matter. -/
inductive Reduction where
  | None
  | Mean
  | Sum
  | Other (value : Int)
deriving DecidableEq, Repr

/-- The Rust `Debug` rendering of a `Kind` value, as interpolated into
the serialize error message of `serde_tensor`. -/
def kindDebugName : Kind → String
  | .Uint8 => "Uint8"
  | .Int8 => "Int8"
  | .Int16 => "Int16"
  | .Int => "Int"
  | .Int64 => "Int64"
  | .Half => "Half"
  | .Float => "Float"
  | .Double => "Double"
  | .ComplexHalf => "ComplexHalf"
  | .ComplexFloat => "ComplexFloat"
  | .ComplexDouble => "ComplexDouble"
  | .Bool => "Bool"
  | .QInt8 => "QInt8"
  | .QUInt8 => "QUInt8"
  | .QInt32 => "QInt32"
  | .BFloat16 => "BFloat16"

/-- ASCII decimal digit value of a character, `none` for non-digits.
Models the per-character step of Rust's `from_str_radix` with radix 10. -/
def charDigit (c : Char) : Option Nat :=
  if 48 ≤ c.toNat ∧ c.toNat ≤ 57 then some (c.toNat - 48) else none

/-- The ASCII character of a decimal digit, inverse of `charDigit`. -/
def digitChar (d : Nat) : Char :=
  Char.ofNat (48 + d)

/-- Digit-accumulation loop of Rust's `from_str_radix`: consume decimal
digits most-significant first, failing on a non-digit character or when the
accumulator would exceed the bound `B` (the checked-arithmetic overflow
test of the concrete integer type). -/
def digitsFold (B : Nat) : List Char → Nat → Option Nat
  | [], acc => some acc
  | c :: cs, acc =>
    match charDigit c with
    | none => none
    | some d => if acc * 10 + d ≤ B then digitsFold B cs (acc * 10 + d) else none

/-- Rust `from_str_radix` digit phase: at least one digit is required. -/
def parseDigitsBnd (B : Nat) (cs : List Char) : Option Nat :=
  if cs.isEmpty then none else digitsFold B cs 0

/-- Rust's `str::parse::<usize>`: an optional leading `+` (a leading `-`
is an invalid digit for an unsigned type), then one or more decimal digits,
with 64-bit overflow checking. -/
def parseUsize (cs : List Char) : Option Nat :=
  match cs with
  | [] => none
  | c :: rest =>
    if c = '+' then parseDigitsBnd (2 ^ 64 - 1) rest
    else parseDigitsBnd (2 ^ 64 - 1) (c :: rest)

/-- Rust's `str::parse::<i64>`: an optional sign then one or more decimal
digits; magnitude bounded by `2^63 - 1` for non-negative results and `2^63`
for negative ones (the checked-arithmetic bounds of `i64`). -/
def parseI64 (cs : List Char) : Option Int :=
  match cs with
  | [] => none
  | c :: rest =>
    if c = '+' then
      match parseDigitsBnd (2 ^ 63 - 1) rest with
      | none => none
      | some m => some (m : Int)
    else if c = '-' then
      match parseDigitsBnd (2 ^ 63) rest with
      | none => none
      | some m => some (-(m : Int))
    else
      match parseDigitsBnd (2 ^ 63 - 1) (c :: rest) with
      | none => none
      | some m => some (m : Int)

/-- Rust's `str::strip_prefix` at the character level: `stripPre p s`
returns the remainder of `s` after the leading pattern `p`, or `none`. -/
def stripPre : List Char → List Char → Option (List Char)
  | [], s => some s
  | _ :: _, [] => none
  | p :: ps, c :: cs => if c = p then stripPre ps cs else none

/-- Decimal formatter core: peel the least significant digit with `/ 10`
and `% 10`; the fuel argument (always at least `n`) makes the recursion
structural. -/
def natDecAux : Nat → Nat → List Char
  | 0, _ => []
  | fuel + 1, n =>
    if n = 0 then [] else natDecAux fuel (n / 10) ++ [digitChar (n % 10)]

/-- Decimal digit string of a natural number, most significant first —
the Rust `Display` rendering of an unsigned integer. -/
def natDecChars (m : Nat) : List Char :=
  if m = 0 then ['0'] else natDecAux m m

/-- The Rust decimal rendering of an unsigned integer. -/
def natDecStr (m : Nat) : String :=
  ⟨natDecChars m⟩

/-- The Rust decimal rendering of a signed integer: a leading `-` for
negative values, no sign otherwise. -/
def intDecChars (v : Int) : List Char :=
  if v < 0 then '-' :: natDecChars v.natAbs else natDecChars v.toNat

/-- String form of `intDecChars`. -/
def intDecStr (v : Int) : String :=
  ⟨intDecChars v⟩

/-- Serializing/deserializing functions for `Device`
(`serde_device` in src/lib.rs). -/
def serde_device.serialize (device : Device) : String :=
  match device with
  | .Cpu => "cpu"
  | .Cuda n => "cuda:" ++ natDecStr n

/-- Deserializing function for `Device` (`serde_device::deserialize`):
`"cpu"` maps to CPU, otherwise strip the
`"cuda:"` pattern and parse the remainder as a `usize`; any failure yields
the `invalid device name` error carrying the original string. -/
def serde_device.deserialize (text : String) : Except String Device :=
  if text = "cpu" then .ok .Cpu
  else
    match stripPre ("cuda:".data) text.data with
    | none => .error ("invalid device name " ++ text)
    | some remaining =>
      match parseUsize remaining with
      | none => .error ("invalid device name " ++ text)
      | some index => .ok (.Cuda index)

/-- Serializing functions for `Kind` (`serde_kind::serialize`). -/
def serde_kind.serialize (kind : Kind) : String :=
  match kind with
  | .Uint8 => "uint8"
  | .Int8 => "int8"
  | .Int16 => "int16"
  | .Int => "int"
  | .Int64 => "int64"
  | .Half => "half"
  | .Float => "float"
  | .Double => "double"
  | .ComplexHalf => "complex_half"
  | .ComplexFloat => "complex_float"
  | .ComplexDouble => "complex_double"
  | .Bool => "bool"
  | .QInt8 => "qint8"
  | .QUInt8 => "quint8"
  | .QInt32 => "qint32"
  | .BFloat16 => "bfloat16"

/-- Deserializing function for `Kind` (`serde_kind::deserialize`):
exact case-sensitive match against the 16
identifiers, otherwise the `invalid kind` error carrying the string. -/
def serde_kind.deserialize (text : String) : Except String Kind :=
  if text = "uint8" then .ok .Uint8
  else if text = "int8" then .ok .Int8
  else if text = "int16" then .ok .Int16
  else if text = "int" then .ok .Int
  else if text = "int64" then .ok .Int64
  else if text = "half" then .ok .Half
  else if text = "float" then .ok .Float
  else if text = "double" then .ok .Double
  else if text = "complex_half" then .ok .ComplexHalf
  else if text = "complex_float" then .ok .ComplexFloat
  else if text = "complex_double" then .ok .ComplexDouble
  else if text = "bool" then .ok .Bool
  else if text = "qint8" then .ok .QInt8
  else if text = "quint8" then .ok .QUInt8
  else if text = "qint32" then .ok .QInt32
  else if text = "bfloat16" then .ok .BFloat16
  else .error ("invalid kind \"" ++ text ++ "\"")

/-- Serializing functions for `Reduction` (`serde_reduction::serialize`). -/
def serde_reduction.serialize (reduction : Reduction) : String :=
  match reduction with
  | .None => "none"
  | .Mean => "mean"
  | .Sum => "sum"
  | .Other value => "other:" ++ intDecStr value

/-- Deserializing function for `Reduction` (`serde_reduction::deserialize`):
exact match on the three keywords,
otherwise strip the `"other:"` pattern and parse the remainder as an `i64`;
any failure yields the `invalid reduction` error carrying the string. -/
def serde_reduction.deserialize (text : String) : Except String Reduction :=
  if text = "none" then .ok .None
  else if text = "mean" then .ok .Mean
  else if text = "sum" then .ok .Sum
  else
    match stripPre ("other:".data) text.data with
    | none => .error ("invalid reduction '" ++ text ++ "'")
    | some remaining =>
      match parseI64 remaining with
      | none => .error ("invalid reduction '" ++ text ++ "'")
      | some value => .ok (.Other value)

/-- The serialized representation of a tensor (`TensorRepr` in src/lib.rs).
Bytes are modelled as natural numbers below 256; the codec never interprets
them, so no arithmetic constraint is needed. -/
structure TensorRepr where
  requires_grad : Bool
  device : Device
  shape : List Int
  kind : Kind
  data : List Nat
deriving DecidableEq, Repr

/-- Modelled from the spec: the state of a `tch::Tensor` observable through
the collaborator contract of §6 — device, gradient-tracking flag, shape,
element kind, and the raw contiguous row-major byte snapshot.  The tensor
library itself is external to the repository; this record is its
observable abstraction. -/
structure Tensor where
  requires_grad : Bool
  device : Device
  shape : List Int
  kind : Kind
  data : List Nat
deriving DecidableEq, Repr

/-- Element count of a shape: product of the dimension sizes, with the
empty shape denoting a scalar (one element).  Models `Tensor::numel`
(a `usize` product of the `i64` sizes). -/
def numelOf (shape : List Int) : Nat :=
  shape.foldl (fun acc sz => acc * sz.toNat) 1

/-- Modelled from the spec: `Tensor::numel` of the tensor library. -/
def Tensor.numel (t : Tensor) : Nat :=
  numelOf t.shape

/-- The per-kind element byte width of `serde_tensor::serialize`: the
`match kind` table over `mem::size_of`, with `none` for the kinds that
reach the `_` arm (the three complex kinds). -/
def elemSize : Kind → Option Nat
  | .Uint8 => some 1
  | .Int8 => some 1
  | .Int16 => some 2
  | .Int => some 4
  | .Int64 => some 8
  | .Half => some 2
  | .Float => some 4
  | .Double => some 8
  | .Bool => some 1
  | .QInt8 => some 1
  | .QUInt8 => some 1
  | .QInt32 => some 4
  | .BFloat16 => some 2
  | _ => none

/-- Modelled from the spec: `Tensor::copy_data_u8` filling a fresh zeroed
buffer of `bufSize` bytes (`vec![0u8; buf_size]`) with the tensor's raw
byte snapshot.  The copy overwrites the buffer with the tensor's
contiguous bytes; whatever the copy does not reach stays zero. -/
def Tensor.copy_data_u8 (t : Tensor) (bufSize : Nat) : List Nat :=
  t.data.take bufSize ++ List.replicate (bufSize - t.data.length) 0

/-- Serializing function for tensors (`serde_tensor::serialize`):
read the tensor's metadata, look up the
element byte width (failing on an unsupported kind with an error naming
the kind), snapshot `numel * elem_size` raw bytes, and assemble the
record.  The final `repr.serialize(serializer)` step — handing the record
to the hosting serializer — is outside the model. -/
def serde_tensor.serialize (tensor : Tensor) : Except String TensorRepr :=
  match elemSize tensor.kind with
  | none =>
    .error ("tensor with kind " ++ kindDebugName tensor.kind ++ " is not supported yet")
  | some elem_size =>
    let numel := tensor.numel
    let buf_size := numel * elem_size
    let buffer := tensor.copy_data_u8 buf_size
    .ok
      { requires_grad := tensor.requires_grad
        device := tensor.device
        shape := tensor.shape
        kind := tensor.kind
        data := buffer }

/-- Modelled from the spec: `Tensor::of_data_size` of the tensor library —
build a tensor on the default/host placement from raw bytes, shape and
kind by byte-for-byte reinterpretation.  The library function performs no
validation of the byte length and returns a plain tensor, not a result. -/
def Tensor.of_data_size (data : List Nat) (shape : List Int) (kind : Kind) : Tensor :=
  { requires_grad := false
    device := .Cpu
    shape := shape
    kind := kind
    data := data }

/-- Modelled from the spec: `Tensor::set_requires_grad` of the tensor
library — set the gradient-tracking flag. -/
def Tensor.set_requires_grad (t : Tensor) (flag : Bool) : Tensor :=
  { t with requires_grad := flag }

/-- Modelled from the spec: `Tensor::to_device` of the tensor library —
move the tensor to the given placement. -/
def Tensor.to_device (t : Tensor) (device : Device) : Tensor :=
  { t with device := device }

/-- Deserializing function for tensors, `serde_tensor::deserialize`,
after the record itself has been parsed:
the body is infallible — it builds the tensor from the raw bytes, then
sets the gradient flag, then moves it to the recorded device.  The only
`?` in the source is on parsing the `TensorRepr` record, which is the
hosting deserializer's work and is the input here. -/
def serde_tensor.deserialize (repr : TensorRepr) : Tensor :=
  let tensor := Tensor.of_data_size repr.data repr.shape repr.kind
  let tensor := tensor.set_requires_grad repr.requires_grad
  let tensor := tensor.to_device repr.device
  tensor

/-- The source's `Device` index is a Rust `usize`: CPU carries nothing,
an accelerator index is a 64-bit unsigned value. -/
def Device.wf : Device → Prop
  | .Cpu => True
  | .Cuda n => n < 2 ^ 64

/-- The source's custom reduction payload is a Rust `i64`. -/
def Reduction.wf : Reduction → Prop
  | .Other v => -(2 ^ 63) ≤ v ∧ v < 2 ^ 63
  | _ => True

/-- A tensor whose byte snapshot is consistent with its metadata: every
dimension is non-negative and the raw data holds exactly
`numel * elem_size` bytes — the invariant every live tensor of the
library satisfies for the kinds the codec supports. -/
def Tensor.wf (t : Tensor) (es : Nat) : Prop :=
  elemSize t.kind = some es ∧ t.data.length = t.numel * es

/-- Unbounded most-significant-first decimal accumulation over characters,
treating non-digits as 0 (only applied to all-digit strings). -/
def digitsValAcc : List Char → Nat → Nat
  | [], acc => acc
  | c :: cs, acc => digitsValAcc cs (acc * 10 + (charDigit c).getD 0)

/-- The numeric value denoted by an all-digit character string. -/
def digitsVal (cs : List Char) : Nat :=
  digitsValAcc cs 0

/-- Whether `cs` is a non-empty run of ASCII decimal digits. -/
def digitsOnly (cs : List Char) : Bool :=
  !cs.isEmpty && cs.all fun c => (charDigit c).isSome

/-- The accelerator-index strings the amended device claim accepts: an
optional leading `+`, then one or more decimal digits denoting a value
below `2 ^ 64`; the result is that value. -/
def specIndex (suffix : List Char) : Option Nat :=
  let digs := if suffix.head? = some '+' then suffix.tail else suffix
  if digitsOnly digs = true ∧ digitsVal digs < 2 ^ 64 then some (digitsVal digs)
  else none

/-- Device decoding as the (amended) specification words it: `"cpu"` is
CPU; a string `"cuda:" ++ suffix` where the suffix is an accepted
accelerator-index spelling (`specIndex`) is that accelerator; everything
else is rejected. -/
def specDeviceDecode (s : String) : Option Device :=
  if s = "cpu" then some .Cpu
  else
    match stripPre ("cuda:".data) s.data with
    | none => none
    | some suffix =>
      match specIndex suffix with
      | none => none
      | some index => some (.Cuda index)

/-- The reduction strings the claim accepts: one of the three keywords, or
`"other:"` followed by a signed-64-bit-parsable decimal with no trailing
characters. -/
def redAccepted (s : String) : Bool :=
  s == "none" || s == "mean" || s == "sum" ||
    (match stripPre ("other:".data) s.data with
     | some rest => (parseI64 rest).isSome
     | none => false)

theorem string_data_append (a b : String) : (a ++ b).data = a.data ++ b.data := by
  cases a; cases b; rfl

theorem string_append_ne {p q t : String} (h : t.data.length < p.data.length) :
    p ++ q ≠ t := by
  intro he
  have hd : p.data ++ q.data = t.data := by rw [← string_data_append, he]
  have hlen := congrArg List.length hd
  simp only [List.length_append] at hlen
  omega

theorem stripPre_self_append (p s : List Char) : stripPre p (p ++ s) = some s := by
  induction p with
  | nil => rfl
  | cons c cs ih => simp [stripPre, ih]

theorem stripPre_eq_some {p : List Char} :
    ∀ {s r : List Char}, stripPre p s = some r → s = p ++ r := by
  induction p with
  | nil =>
    intro s r h
    simpa [stripPre] using h
  | cons c cs ih =>
    intro s r h
    cases s with
    | nil => simp [stripPre] at h
    | cons a as =>
      unfold stripPre at h
      split at h
      · next ha => subst ha; simpa using ih h
      · exact absurd h (by simp)

theorem charDigit_digitChar {d : Nat} (h : d < 10) : charDigit (digitChar d) = some d := by
  interval_cases d <;> decide

theorem le_digitsValAcc (cs : List Char) (acc : Nat) : acc ≤ digitsValAcc cs acc := by
  induction cs generalizing acc with
  | nil => exact Nat.le_refl acc
  | cons c cs ih =>
    exact Nat.le_trans (by omega) (ih (acc * 10 + (charDigit c).getD 0))

theorem digitsFold_eq (B : Nat) (cs : List Char) (acc : Nat) (hacc : acc ≤ B) :
    digitsFold B cs acc =
      if (cs.all fun c => (charDigit c).isSome) = true ∧ digitsValAcc cs acc ≤ B
      then some (digitsValAcc cs acc) else none := by
  induction cs generalizing acc with
  | nil => simp [digitsFold, digitsValAcc, hacc]
  | cons c cs ih =>
    simp only [digitsFold, List.all_cons, digitsValAcc]
    cases hc : charDigit c with
    | none => simp [hc]
    | some d =>
      simp only [hc, Option.getD_some, Option.isSome_some, Bool.true_and]
      by_cases hb : acc * 10 + d ≤ B
      · rw [if_pos hb, ih (acc * 10 + d) hb]
      · rw [if_neg hb]
        have hval : ¬ digitsValAcc cs (acc * 10 + d) ≤ B :=
          fun hle => hb (Nat.le_trans (le_digitsValAcc cs (acc * 10 + d)) hle)
        simp [hval]

theorem parseDigitsBnd_eq (B : Nat) (cs : List Char) :
    parseDigitsBnd B cs =
      if digitsOnly cs = true ∧ digitsVal cs ≤ B then some (digitsVal cs) else none := by
  unfold parseDigitsBnd digitsOnly digitsVal
  cases cs with
  | nil => simp
  | cons c cs => simp [digitsFold_eq B (c :: cs) 0 (Nat.zero_le B)]

theorem natDecAux_zero (fuel : Nat) : natDecAux fuel 0 = [] := by
  cases fuel <;> simp [natDecAux]

theorem digitsValAcc_snoc (cs : List Char) (c : Char) (acc : Nat) :
    digitsValAcc (cs ++ [c]) acc = digitsValAcc cs acc * 10 + (charDigit c).getD 0 := by
  induction cs generalizing acc with
  | nil => simp [digitsValAcc]
  | cons a as ih => simp [digitsValAcc, ih]

theorem natDecAux_val (fuel : Nat) :
    ∀ n acc, 0 < n → n ≤ fuel →
      digitsValAcc (natDecAux fuel n) acc = acc * 10 ^ (natDecAux fuel n).length + n := by
  induction fuel with
  | zero => intro n acc hn hfuel; omega
  | succ fuel ih =>
    intro n acc hn hfuel
    have hn0 : n ≠ 0 := by omega
    simp only [natDecAux, if_neg hn0]
    rw [digitsValAcc_snoc, charDigit_digitChar (Nat.mod_lt n (by norm_num))]
    simp only [Option.getD_some, List.length_append, List.length_cons, List.length_nil]
    by_cases h10 : n < 10
    · have hq : n / 10 = 0 := Nat.div_eq_of_lt h10
      rw [hq, natDecAux_zero]
      simp only [digitsValAcc, List.length_nil]
      have hmod : n % 10 = n := Nat.mod_eq_of_lt h10
      simp [hmod]
    · have hq : 0 < n / 10 := Nat.div_pos (by omega) (by norm_num)
      have hlt : n / 10 < n := Nat.div_lt_self hn (by norm_num)
      rw [ih (n / 10) acc hq (by omega)]
      rw [pow_succ]
      have hdm : 10 * (n / 10) + n % 10 = n := by omega
      generalize (10 : Nat) ^ (natDecAux fuel (n / 10)).length = P
      calc (acc * P + n / 10) * 10 + n % 10
          = acc * (P * 10) + (10 * (n / 10) + n % 10) := by ring
        _ = acc * (P * 10) + n := by rw [hdm]

theorem natDecAux_digits (fuel : Nat) :
    ∀ n, ((natDecAux fuel n).all fun c => (charDigit c).isSome) = true := by
  induction fuel with
  | zero => intro n; rfl
  | succ fuel ih =>
    intro n
    by_cases hn : n = 0
    · simp [natDecAux, hn]
    · simp only [natDecAux, if_neg hn, List.all_append, List.all_cons, List.all_nil]
      simp [ih (n / 10), charDigit_digitChar (Nat.mod_lt n (by norm_num))]

theorem natDecChars_ne_nil (m : Nat) : natDecChars m ≠ [] := by
  unfold natDecChars
  split
  · simp
  · next hm =>
    cases m with
    | zero => exact absurd rfl hm
    | succ k => simp [natDecAux]

theorem natDecChars_digits (m : Nat) :
    ((natDecChars m).all fun c => (charDigit c).isSome) = true := by
  unfold natDecChars
  split
  · decide
  · exact natDecAux_digits m m

theorem digitsVal_natDecChars (m : Nat) : digitsVal (natDecChars m) = m := by
  unfold digitsVal natDecChars
  split
  · next hm => rw [hm]; decide
  · next hm =>
    rw [natDecAux_val m m 0 (by omega) (Nat.le_refl m)]
    simp

theorem digitsOnly_natDecChars (m : Nat) : digitsOnly (natDecChars m) = true := by
  unfold digitsOnly
  rw [natDecChars_digits m, Bool.and_true]
  cases hm : natDecChars m with
  | nil => exact absurd hm (natDecChars_ne_nil m)
  | cons c cs => simp

theorem parseDigitsBnd_natDecChars {B m : Nat} (h : m ≤ B) :
    parseDigitsBnd B (natDecChars m) = some m := by
  rw [parseDigitsBnd_eq, digitsVal_natDecChars]
  simp [digitsOnly_natDecChars m, h]

theorem natDecChars_head_digit (m : Nat) :
    ∃ c cs, natDecChars m = c :: cs ∧ (charDigit c).isSome = true := by
  cases hm : natDecChars m with
  | nil => exact absurd hm (natDecChars_ne_nil m)
  | cons c cs =>
    refine ⟨c, cs, rfl, ?_⟩
    have hall := natDecChars_digits m
    rw [hm] at hall
    simp only [List.all_cons, Bool.and_eq_true] at hall
    exact hall.1

theorem parseUsize_natDecChars {m : Nat} (h : m < 2 ^ 64) :
    parseUsize (natDecChars m) = some m := by
  obtain ⟨c, cs, hc, hd⟩ := natDecChars_head_digit m
  have hplus : c ≠ '+' := by
    intro he
    rw [he] at hd
    simp [charDigit] at hd
  rw [hc]
  show parseUsize (c :: cs) = some m
  rw [show parseUsize (c :: cs) = parseDigitsBnd (2 ^ 64 - 1) (c :: cs) by
    simp [parseUsize, hplus]]
  rw [← hc]
  exact parseDigitsBnd_natDecChars (by omega)

theorem parseI64_intDecChars {v : Int} (hlo : -(2 ^ 63) ≤ v) (hhi : v < 2 ^ 63) :
    parseI64 (intDecChars v) = some v := by
  unfold intDecChars
  by_cases hv : v < 0
  · rw [if_pos hv]
    have habs : v.natAbs ≤ 2 ^ 63 := by omega
    have hstep : parseI64 ('-' :: natDecChars v.natAbs)
        = match parseDigitsBnd (2 ^ 63) (natDecChars v.natAbs) with
          | none => none
          | some m => some (-(m : Int)) := rfl
    rw [hstep, parseDigitsBnd_natDecChars habs]
    show some (-((v.natAbs : Int))) = some v
    congr 1
    omega
  · rw [if_neg hv]
    obtain ⟨c, cs, hc, hd⟩ := natDecChars_head_digit v.toNat
    have hplus : c ≠ '+' := by
      intro he; rw [he] at hd; simp [charDigit] at hd
    have hminus : c ≠ '-' := by
      intro he; rw [he] at hd; simp [charDigit] at hd
    rw [hc]
    have hstep : parseI64 (c :: cs)
        = match parseDigitsBnd (2 ^ 63 - 1) (c :: cs) with
          | none => none
          | some m => some (m : Int) := by
      simp only [parseI64]
      rw [if_neg hplus, if_neg hminus]
    rw [hstep, ← hc, parseDigitsBnd_natDecChars (show v.toNat ≤ 2 ^ 63 - 1 by omega)]
    show some ((v.toNat : Int)) = some v
    congr 1
    omega

theorem specIndex_cons_plus (rest : List Char) :
    specIndex ('+' :: rest)
      = if digitsOnly rest = true ∧ digitsVal rest < 2 ^ 64
        then some (digitsVal rest) else none := rfl

theorem specIndex_cons_ne_plus {c : Char} (rest : List Char) (hc : c ≠ '+') :
    specIndex (c :: rest)
      = if digitsOnly (c :: rest) = true ∧ digitsVal (c :: rest) < 2 ^ 64
        then some (digitsVal (c :: rest)) else none := by
  unfold specIndex
  have hne : ¬ ((c :: rest).head? = some '+') := by simp [hc]
  simp only [if_neg hne, List.tail_cons]

theorem parseUsize_spec (cs : List Char) : parseUsize cs = specIndex cs := by
  cases cs with
  | nil => rfl
  | cons c rest =>
    by_cases hc : c = '+'
    · subst hc
      rw [specIndex_cons_plus]
      show parseDigitsBnd (2 ^ 64 - 1) rest = _
      rw [parseDigitsBnd_eq]
      by_cases h1 : digitsOnly rest = true ∧ digitsVal rest < 2 ^ 64
      · rw [if_pos ⟨h1.1, by omega⟩, if_pos h1]
      · rw [if_neg (fun hx => h1 ⟨hx.1, by omega⟩), if_neg h1]
    · rw [specIndex_cons_ne_plus rest hc]
      show (if c = '+' then parseDigitsBnd (2 ^ 64 - 1) rest
            else parseDigitsBnd (2 ^ 64 - 1) (c :: rest)) = _
      rw [if_neg hc, parseDigitsBnd_eq]
      by_cases h1 : digitsOnly (c :: rest) = true ∧ digitsVal (c :: rest) < 2 ^ 64
      · rw [if_pos ⟨h1.1, by omega⟩, if_pos h1]
      · rw [if_neg (fun hx => h1 ⟨hx.1, by omega⟩), if_neg h1]

/-- The 16 fixed lowercase identifiers of the kind codec. -/
def kindNames : List String :=
  ["uint8", "int8", "int16", "int", "int64", "half", "float", "double",
   "complex_half", "complex_float", "complex_double", "bool", "qint8",
   "quint8", "qint32", "bfloat16"]

/-- C4: for every value of the three leaf domains — every `Kind`, every
`Device` (CPU or any accelerator index representable in the source's
`usize`) and every `Reduction` (None, Mean, Sum, or any custom code
representable in the source's `i64`) — decoding the encoding yields the
value back: `decode (encode v) = v` for each leaf codec. -/
theorem leaf_codecs_roundtrip (k : Kind) (d : Device) (r : Reduction)
    (hd : d.wf) (hr : r.wf) :
    serde_kind.deserialize (serde_kind.serialize k) = .ok k ∧
    serde_device.deserialize (serde_device.serialize d) = .ok d ∧
    serde_reduction.deserialize (serde_reduction.serialize r) = .ok r := by
  refine ⟨?_, ?_, ?_⟩
  · cases k <;> rfl
  · cases d with
    | Cpu => rfl
    | Cuda n =>
      have hn : n < 2 ^ 64 := hd
      show serde_device.deserialize ("cuda:" ++ natDecStr n) = .ok (.Cuda n)
      unfold serde_device.deserialize
      rw [if_neg (string_append_ne (by decide))]
      have hdata : ("cuda:" ++ natDecStr n).data = "cuda:".data ++ natDecChars n := by
        rw [string_data_append]
        rfl
      simp only [hdata, stripPre_self_append, parseUsize_natDecChars hn]
  · cases r with
    | None => rfl
    | Mean => rfl
    | Sum => rfl
    | Other v =>
      obtain ⟨hlo, hhi⟩ := hr
      show serde_reduction.deserialize ("other:" ++ intDecStr v) = .ok (.Other v)
      unfold serde_reduction.deserialize
      rw [if_neg (string_append_ne (by decide)), if_neg (string_append_ne (by decide)),
        if_neg (string_append_ne (by decide))]
      have hdata : ("other:" ++ intDecStr v).data = "other:".data ++ intDecChars v := by
        rw [string_data_append]
        rfl
      simp only [hdata, stripPre_self_append, parseI64_intDecChars hlo hhi]

/-- Witness for C4 at `Kind.Float`, `Device.Cuda 0`, `Reduction.Other (-7)`. -/
theorem leaf_codecs_roundtrip_witness :
    (Device.Cuda 0).wf ∧ (Reduction.Other (-7)).wf ∧
    (serde_kind.deserialize (serde_kind.serialize Kind.Float) = .ok Kind.Float ∧
     serde_device.deserialize (serde_device.serialize (Device.Cuda 0)) = .ok (Device.Cuda 0) ∧
     serde_reduction.deserialize (serde_reduction.serialize (Reduction.Other (-7)))
       = .ok (Reduction.Other (-7))) :=
  ⟨(by decide : (0 : Nat) < 2 ^ 64),
   ⟨(by decide : -(2 ^ 63) ≤ (-7 : Int)), (by decide : (-7 : Int) < 2 ^ 63)⟩,
   leaf_codecs_roundtrip Kind.Float (Device.Cuda 0) (Reduction.Other (-7))
     (by decide : (0 : Nat) < 2 ^ 64)
     ⟨(by decide : -(2 ^ 63) ≤ (-7 : Int)), (by decide : (-7 : Int) < 2 ^ 63)⟩⟩

/-- C7: kind encode is total over the 16-variant enumeration (complex
kinds included) and lands in the 16 fixed lowercase identifiers; decoding
an encoded kind recovers it exactly; and any string outside the 16
identifiers decodes to the `invalid kind` error carrying the string. -/
theorem kind_codec_exact (k : Kind) (s : String) (hs : s ∉ kindNames) :
    serde_kind.serialize k ∈ kindNames ∧
    serde_kind.deserialize (serde_kind.serialize k) = .ok k ∧
    serde_kind.deserialize s = .error ("invalid kind \"" ++ s ++ "\"") := by
  refine ⟨?_, ?_, ?_⟩
  · cases k <;> decide
  · cases k <;> rfl
  · simp only [kindNames, List.mem_cons, List.mem_singleton, not_or] at hs
    obtain ⟨h1, h2, h3, h4, h5, h6, h7, h8, h9, h10, h11, h12, h13, h14, h15, h16⟩ := hs
    simp [serde_kind.deserialize, h1, h2, h3, h4, h5, h6, h7, h8, h9, h10, h11, h12,
      h13, h14, h15, h16]

/-- Witness for C7 at `Kind.Float` and the rejected string `"Float"`. -/
theorem kind_codec_exact_witness :
    ("Float" : String) ∉ kindNames ∧
    (serde_kind.serialize Kind.Float ∈ kindNames ∧
     serde_kind.deserialize (serde_kind.serialize Kind.Float) = .ok Kind.Float ∧
     serde_kind.deserialize "Float" = .error ("invalid kind \"" ++ "Float" ++ "\"")) :=
  ⟨by decide, kind_codec_exact Kind.Float "Float" (by decide)⟩

/-- C8: reduction encode maps None/Mean/Sum to the three keywords and a
custom code to `"other:"` followed by its signed decimal (digits only, no
sign, for non-negative codes); `Custom 3` encodes to `"other:3"`,
`"other:3"` decodes to `Custom 3`, `"other:-7"` decodes to `Custom (-7)`;
and every string that is neither a keyword nor `"other:"` followed by a
signed-64-bit-parsable decimal decodes to the `invalid reduction` error
carrying the original string. -/
theorem reduction_codec_contract (v : Int) (s : String)
    (hv : 0 ≤ v) (hs : redAccepted s = false) :
    serde_reduction.serialize .None = "none" ∧
    serde_reduction.serialize .Mean = "mean" ∧
    serde_reduction.serialize .Sum = "sum" ∧
    serde_reduction.serialize (.Other 3) = "other:3" ∧
    serde_reduction.deserialize "other:3" = .ok (.Other 3) ∧
    serde_reduction.deserialize "other:-7" = .ok (.Other (-7)) ∧
    serde_reduction.serialize (.Other v) = "other:" ++ natDecStr v.toNat ∧
    digitsOnly (natDecChars v.toNat) = true ∧
    serde_reduction.deserialize s = .error ("invalid reduction '" ++ s ++ "'") := by
  refine ⟨rfl, rfl, rfl, rfl, rfl, rfl, ?_, digitsOnly_natDecChars v.toNat, ?_⟩
  · show ("other:" ++ intDecStr v) = "other:" ++ natDecStr v.toNat
    unfold intDecStr intDecChars
    rw [if_neg (by omega : ¬ v < 0)]
    rfl
  · unfold serde_reduction.deserialize
    unfold redAccepted at hs
    simp only [Bool.or_eq_false_iff, beq_eq_false_iff_ne, ne_eq] at hs
    obtain ⟨⟨⟨h1, h2⟩, h3⟩, h4⟩ := hs
    rw [if_neg h1, if_neg h2, if_neg h3]
    cases hstrip : stripPre ("other:".data) s.data with
    | none => simp only [hstrip]
    | some rest =>
      rw [hstrip] at h4
      have h5 : (parseI64 rest).isSome = false := h4
      have hp : parseI64 rest = none := by
        cases hp : parseI64 rest with
        | none => rfl
        | some x =>
          rw [hp] at h5
          simp at h5
      simp only [hstrip, hp]

/-- Witness for C8 at `v = 5` and the rejected string `"mean "`. -/
theorem reduction_codec_contract_witness :
    (0 : Int) ≤ 5 ∧ redAccepted "mean " = false ∧
    (serde_reduction.serialize .None = "none" ∧
     serde_reduction.serialize .Mean = "mean" ∧
     serde_reduction.serialize .Sum = "sum" ∧
     serde_reduction.serialize (.Other 3) = "other:3" ∧
     serde_reduction.deserialize "other:3" = .ok (.Other 3) ∧
     serde_reduction.deserialize "other:-7" = .ok (.Other (-7)) ∧
     serde_reduction.serialize (.Other 5) = "other:" ++ natDecStr (5 : Int).toNat ∧
     digitsOnly (natDecChars (5 : Int).toNat) = true ∧
     serde_reduction.deserialize "mean " = .error ("invalid reduction '" ++ "mean " ++ "'")) :=
  ⟨by decide, by rfl, reduction_codec_contract 5 "mean " (by decide) (by rfl)⟩

/-- C10: the device decoder accepts non-canonical accelerator spellings —
`"cuda:01"` and `"cuda:+1"` both decode to the same `Cuda 1` as the
canonical `"cuda:1"` — so decoding is not injective on accepted strings,
and re-encoding the decoded value of `"cuda:01"` yields `"cuda:1"`, not
the original string. -/
theorem device_decode_noncanonical :
    serde_device.deserialize "cuda:01" = .ok (.Cuda 1) ∧
    serde_device.deserialize "cuda:+1" = .ok (.Cuda 1) ∧
    serde_device.deserialize "cuda:1" = .ok (.Cuda 1) ∧
    serde_device.serialize (.Cuda 1) = "cuda:1" ∧
    ("cuda:01" : String) ≠ "cuda:1" ∧ ("cuda:+1" : String) ≠ "cuda:1" :=
  ⟨rfl, rfl, rfl, rfl, by decide, by decide⟩

/-- C5 counterexample: the claim's accepted set — exactly `"cuda:"`
followed by a plain non-negative decimal-digit string — is wrong in both
directions.  `"cuda:+1"` is not a digit string yet decodes successfully,
and `"cuda:18446744073709551616"` is a digit string (denoting `2 ^ 64`)
yet decode rejects it because the index overflows the 64-bit parser. -/
theorem device_decode_claim_counterexample :
    serde_device.deserialize "cuda:+1" = .ok (.Cuda 1) ∧
    digitsOnly ("+1".data) = false ∧
    serde_device.deserialize "cuda:18446744073709551616" =
      .error ("invalid device name " ++ "cuda:18446744073709551616") ∧
    digitsOnly ("18446744073709551616".data) = true ∧
    digitsVal ("18446744073709551616".data) = 2 ^ 64 :=
  ⟨rfl, by decide, rfl, by decide, by decide⟩

/-- C5 as amended: device decode maps exactly `"cpu"` to CPU; it maps
exactly those strings `"cuda:" ++ suffix` whose suffix is an optional `+`
followed by a non-empty decimal-digit run denoting a value below `2 ^ 64`
to the accelerator with that index; every other string is a decode
failure carrying the original string. -/
theorem device_codec_spec (s : String) (d : Device) :
    (serde_device.deserialize s = .ok d ↔ specDeviceDecode s = some d) ∧
    (specDeviceDecode s = none →
      serde_device.deserialize s = .error ("invalid device name " ++ s)) := by
  unfold serde_device.deserialize specDeviceDecode
  by_cases hcpu : s = "cpu"
  · simp [hcpu]
  · rw [if_neg hcpu, if_neg hcpu]
    cases hstrip : stripPre ("cuda:".data) s.data with
    | none => simp
    | some suffix =>
      simp only [parseUsize_spec]
      cases hp : specIndex suffix with
      | none => simp
      | some n => simp

/-- Witness for the amended C5 at the rejected string `"gpu:0"`. -/
theorem device_codec_spec_witness :
    specDeviceDecode "gpu:0" = none ∧
    (serde_device.deserialize "gpu:0" = .ok Device.Cpu ↔
      specDeviceDecode "gpu:0" = some Device.Cpu) ∧
    serde_device.deserialize "gpu:0" = .error ("invalid device name " ++ "gpu:0") :=
  ⟨rfl, (device_codec_spec "gpu:0" Device.Cpu).1,
   (device_codec_spec "gpu:0" Device.Cpu).2 rfl⟩

theorem copy_data_u8_length (t : Tensor) (bufSize : Nat) :
    (t.copy_data_u8 bufSize).length = bufSize := by
  unfold Tensor.copy_data_u8
  simp only [List.length_append, List.length_take, List.length_replicate]
  omega

/-- C1: serializing a tensor whose kind is in the supported byte-width
table and then deserializing the record yields a tensor with the same
shape, kind, gradient-tracking flag, device, and bit-identical element
data as the original. -/
theorem tensor_roundtrip (t : Tensor) (es : Nat)
    (hk : elemSize t.kind = some es) (hlen : t.data.length = t.numel * es) :
    ∃ r, serde_tensor.serialize t = .ok r ∧
      (serde_tensor.deserialize r).shape = t.shape ∧
      (serde_tensor.deserialize r).kind = t.kind ∧
      (serde_tensor.deserialize r).requires_grad = t.requires_grad ∧
      (serde_tensor.deserialize r).device = t.device ∧
      (serde_tensor.deserialize r).data = t.data := by
  have hbuf : t.copy_data_u8 (t.numel * es) = t.data := by
    unfold Tensor.copy_data_u8
    rw [← hlen]
    simp [List.take_length]
  refine ⟨{ requires_grad := t.requires_grad, device := t.device, shape := t.shape,
            kind := t.kind, data := t.data }, ?_, rfl, rfl, rfl, rfl, rfl⟩
  unfold serde_tensor.serialize
  simp only [hk, hbuf]

/-- Witness for C1: a 2-element `uint8` tensor on the CPU. -/
theorem tensor_roundtrip_witness :
    elemSize (Tensor.mk false Device.Cpu [2] Kind.Uint8 [3, 5]).kind = some 1 ∧
    (Tensor.mk false Device.Cpu [2] Kind.Uint8 [3, 5]).data.length
      = (Tensor.mk false Device.Cpu [2] Kind.Uint8 [3, 5]).numel * 1 ∧
    (∃ r, serde_tensor.serialize (Tensor.mk false Device.Cpu [2] Kind.Uint8 [3, 5]) = .ok r ∧
      (serde_tensor.deserialize r).shape = (Tensor.mk false Device.Cpu [2] Kind.Uint8 [3, 5]).shape ∧
      (serde_tensor.deserialize r).kind = (Tensor.mk false Device.Cpu [2] Kind.Uint8 [3, 5]).kind ∧
      (serde_tensor.deserialize r).requires_grad
        = (Tensor.mk false Device.Cpu [2] Kind.Uint8 [3, 5]).requires_grad ∧
      (serde_tensor.deserialize r).device = (Tensor.mk false Device.Cpu [2] Kind.Uint8 [3, 5]).device ∧
      (serde_tensor.deserialize r).data = (Tensor.mk false Device.Cpu [2] Kind.Uint8 [3, 5]).data) :=
  ⟨rfl, rfl, tensor_roundtrip (Tensor.mk false Device.Cpu [2] Kind.Uint8 [3, 5]) 1 rfl rfl⟩

/-- C2 (code bug): `serde_tensor::deserialize` performs no byte-length
validation.  Its only fallible step is parsing the record itself; once a
`TensorRepr` exists, the body is infallible and hands the bytes straight
to the tensor library.  A record with `shape = [2]`, `kind = uint8` and a
3-byte (or 1-byte) payload — expected length 2 — is therefore never
rejected with a malformed-record decode error. -/
theorem deserialize_no_length_validation :
    elemSize Kind.Uint8 = some 1 ∧
    numelOf [2] * 1 = 2 ∧
    (serde_tensor.deserialize
      { requires_grad := false, device := .Cpu, shape := [2], kind := .Uint8,
        data := [0, 0, 0] }).data = [0, 0, 0] ∧
    (serde_tensor.deserialize
      { requires_grad := false, device := .Cpu, shape := [2], kind := .Uint8,
        data := [0] }).data = [0] :=
  ⟨rfl, rfl, rfl, rfl⟩

/-- C3: serializing a tensor whose kind is one of the three complex kinds
fails with the error naming the offending kind, and hence never produces
a record at all. -/
theorem serialize_unsupported_kind (t : Tensor)
    (h : t.kind = .ComplexHalf ∨ t.kind = .ComplexFloat ∨ t.kind = .ComplexDouble) :
    serde_tensor.serialize t =
      .error ("tensor with kind " ++ kindDebugName t.kind ++ " is not supported yet") := by
  unfold serde_tensor.serialize
  rcases h with h | h | h <;> rw [h] <;> rfl

/-- Witness for C3 at a scalar `complex_float` tensor. -/
theorem serialize_unsupported_kind_witness :
    ((Tensor.mk false Device.Cpu [] Kind.ComplexFloat []).kind = Kind.ComplexHalf ∨
     (Tensor.mk false Device.Cpu [] Kind.ComplexFloat []).kind = Kind.ComplexFloat ∨
     (Tensor.mk false Device.Cpu [] Kind.ComplexFloat []).kind = Kind.ComplexDouble) ∧
    serde_tensor.serialize (Tensor.mk false Device.Cpu [] Kind.ComplexFloat [])
      = .error ("tensor with kind "
          ++ kindDebugName (Tensor.mk false Device.Cpu [] Kind.ComplexFloat []).kind
          ++ " is not supported yet") :=
  ⟨Or.inr (Or.inl rfl),
   serialize_unsupported_kind (Tensor.mk false Device.Cpu [] Kind.ComplexFloat [])
     (Or.inr (Or.inl rfl))⟩

/-- C6: every record the encoder produces satisfies
`data.length = numel shape * element_size kind`, where `element_size` is
the fixed table (1 for uint8/int8/bool/qint8/quint8, 2 for
int16/half/bfloat16, 4 for int/qint32/float, 8 for int64/double) and the
element count of the empty shape is 1. -/
theorem record_length_invariant (t : Tensor) (r : TensorRepr)
    (h : serde_tensor.serialize t = .ok r) :
    (∃ es, elemSize r.kind = some es ∧ r.data.length = numelOf r.shape * es) ∧
    numelOf [] = 1 ∧
    elemSize .Uint8 = some 1 ∧ elemSize .Int8 = some 1 ∧ elemSize .Bool = some 1 ∧
    elemSize .QInt8 = some 1 ∧ elemSize .QUInt8 = some 1 ∧
    elemSize .Int16 = some 2 ∧ elemSize .Half = some 2 ∧ elemSize .BFloat16 = some 2 ∧
    elemSize .Int = some 4 ∧ elemSize .QInt32 = some 4 ∧ elemSize .Float = some 4 ∧
    elemSize .Int64 = some 8 ∧ elemSize .Double = some 8 := by
  refine ⟨?_, rfl, rfl, rfl, rfl, rfl, rfl, rfl, rfl, rfl, rfl, rfl, rfl, rfl, rfl⟩
  unfold serde_tensor.serialize at h
  cases hk : elemSize t.kind with
  | none =>
    rw [hk] at h
    exact absurd h (by simp)
  | some es =>
    simp only [hk] at h
    obtain rfl := Except.ok.inj h
    refine ⟨es, hk, ?_⟩
    show (t.copy_data_u8 (t.numel * es)).length = numelOf t.shape * es
    rw [copy_data_u8_length]
    rfl

/-- Witness for C6 at a 3×1 `int16` tensor. -/
theorem record_length_invariant_witness :
    serde_tensor.serialize (Tensor.mk false Device.Cpu [3, 1] Kind.Int16 [1, 2, 3, 4, 5, 6])
      = .ok (TensorRepr.mk false Device.Cpu [3, 1] Kind.Int16 [1, 2, 3, 4, 5, 6]) ∧
    ((∃ es, elemSize (TensorRepr.mk false Device.Cpu [3, 1] Kind.Int16
        [1, 2, 3, 4, 5, 6]).kind = some es ∧
      (TensorRepr.mk false Device.Cpu [3, 1] Kind.Int16 [1, 2, 3, 4, 5, 6]).data.length
        = numelOf (TensorRepr.mk false Device.Cpu [3, 1] Kind.Int16
            [1, 2, 3, 4, 5, 6]).shape * es) ∧
     numelOf [] = 1 ∧
     elemSize .Uint8 = some 1 ∧ elemSize .Int8 = some 1 ∧ elemSize .Bool = some 1 ∧
     elemSize .QInt8 = some 1 ∧ elemSize .QUInt8 = some 1 ∧
     elemSize .Int16 = some 2 ∧ elemSize .Half = some 2 ∧ elemSize .BFloat16 = some 2 ∧
     elemSize .Int = some 4 ∧ elemSize .QInt32 = some 4 ∧ elemSize .Float = some 4 ∧
     elemSize .Int64 = some 8 ∧ elemSize .Double = some 8) :=
  ⟨rfl, record_length_invariant
    (Tensor.mk false Device.Cpu [3, 1] Kind.Int16 [1, 2, 3, 4, 5, 6])
    (TensorRepr.mk false Device.Cpu [3, 1] Kind.Int16 [1, 2, 3, 4, 5, 6]) rfl⟩

/-- C9: on a successful decode the tensor is rebuilt in order — first
from the raw bytes, shape and kind on the default/host placement (CPU,
gradient tracking off), then the gradient flag is set to the record's
`requires_grad`, and only then is it moved to the record's device — so
the result carries the record's flag and device (and its shape, kind and
bytes). -/
theorem deserialize_order (r : TensorRepr) :
    serde_tensor.deserialize r =
      ((Tensor.of_data_size r.data r.shape r.kind).set_requires_grad
        r.requires_grad).to_device r.device ∧
    (Tensor.of_data_size r.data r.shape r.kind).device = .Cpu ∧
    (Tensor.of_data_size r.data r.shape r.kind).requires_grad = false ∧
    (serde_tensor.deserialize r).requires_grad = r.requires_grad ∧
    (serde_tensor.deserialize r).device = r.device ∧
    (serde_tensor.deserialize r).shape = r.shape ∧
    (serde_tensor.deserialize r).kind = r.kind ∧
    (serde_tensor.deserialize r).data = r.data :=
  ⟨rfl, rfl, rfl, rfl, rfl, rfl, rfl, rfl⟩
